import Mathlib

/-!
Verification of the sparrow in-memory key-value store: a shallow embedding of
the RESP wire codec (sparrow-resp), the Egg/Nest record store, the command
layer and the request-processing loops, together with proofs of the stated
properties.  Rust strings are represented by their UTF-8 byte sequences
(`List Nat`), readers by the list of bytes still to be consumed, and fallible
operations return `Except`.
-/

namespace Sparrow

/-! ## Wire codec: data model (sparrow-resp/src/data.rs) -/

/-- Wire-level data type of the RESP protocol.  `BulkString`, `Error` and
`SimpleString` carry the UTF-8 bytes of the Rust `String`; `Integer` carries
the mathematical value of the i64 field. -/
inductive Data where
  | array : List Data → Data
  | bulkString : List Nat → Data
  | error : List Nat → Data
  | integer : Int → Data
  | null : Data
  | nullArray : Data
  | simpleString : List Nat → Data

/-! ## Constants (sparrow-resp/src/constants.rs) -/

def CR_BYTE : Nat := 13
def LF_BYTE : Nat := 10

def RESPONSE_MAX_SIZE : Int := 512 * 1024 * 1024

/-- Least i64 value, for the range check of the Rust `str::parse::<i64>`. -/
def I64_MIN : Int := -(2 ^ 63)

/-- Greatest i64 value. -/
def I64_MAX : Int := 2 ^ 63 - 1

/-! ## Decode failures (std::io::Error values built in deserialize.rs)

Each constructor records one `Error::new(kind, message)` site of the source,
keeping the data interpolated into the message. -/

inductive DecodeErr where
  | brokenPipe
  | inputTooShort (len : Nat)
  | invalidCrlf (x y : Nat)
  | dataTooLarge (n : Int)
  | cannotParse
  | unknownHead (tag : Nat)
  | unexpectedEof
  | outOfFuel
  deriving DecidableEq

inductive ErrorKind where
  | brokenPipe | invalidInput | invalidData | unexpectedEof | other
  deriving DecidableEq

def DecodeErr.kind : DecodeErr → ErrorKind
  | .brokenPipe => .brokenPipe
  | .inputTooShort _ => .invalidInput
  | .invalidCrlf _ _ => .invalidInput
  | .dataTooLarge _ => .invalidData
  | .cannotParse => .invalidData
  | .unknownHead _ => .invalidInput
  | .unexpectedEof => .unexpectedEof
  | .outOfFuel => .other

/-! ## Decimal numerals

`natDecimal`/`intDecimal` model the Rust `to_string` of unsigned and signed
integers; `parseDigits` and `parse_integer` model `str::parse::<i64>`. -/

def natDecimalGo : Nat → Nat → List Nat
  | _, 0 => []
  | 0, _ + 1 => []
  | fuel + 1, n + 1 => natDecimalGo fuel ((n + 1) / 10) ++ [(n + 1) % 10 + 48]

/-- Most-significant-first decimal digit bytes of `n`, empty for `0`.  The
fuel argument of `natDecimalGo` only keeps the recursion structural; `n`
itself is always enough fuel. -/
def natDecimalAux (n : Nat) : List Nat := natDecimalGo n n

def natDecimal (n : Nat) : List Nat := if n = 0 then [48] else natDecimalAux n

def intDecimal (i : Int) : List Nat :=
  if i < 0 then 45 :: natDecimal i.natAbs else natDecimal i.toNat

def digitVal (b : Nat) : Option Nat :=
  if 48 ≤ b ∧ b ≤ 57 then some (b - 48) else none

def parseDigitsAux (acc : Nat) : List Nat → Option Nat
  | [] => some acc
  | b :: rest =>
    match digitVal b with
    | some d => parseDigitsAux (acc * 10 + d) rest
    | none => none

/-- Parse a nonempty run of ASCII digits as a natural number. -/
def parseDigits (bs : List Nat) : Option Nat :=
  match bs with
  | [] => none
  | _ => parseDigitsAux 0 bs

/-- Model of `str::parse::<i64>`: an optional sign, a nonempty digit run,
and a range check. -/
def parse_integer (bs : List Nat) : Except DecodeErr Int :=
  let signed : Option Int :=
    match bs with
    | [] => none
    | b :: rest =>
      if b = 43 then (parseDigits rest).map (fun n => (n : Int))
      else if b = 45 then (parseDigits rest).map (fun n => -(n : Int))
      else (parseDigits (b :: rest)).map (fun n => (n : Int))
  match signed with
  | none => .error .cannotParse
  | some v => if I64_MIN ≤ v ∧ v ≤ I64_MAX then .ok v else .error .cannotParse

/-! ## UTF-8 validity (`String::from_utf8` in parse_string) -/

def isCont (b : Nat) : Bool := 128 ≤ b && b ≤ 191

def validUtf8 : List Nat → Bool
  | [] => true
  | b :: rest =>
    if b ≤ 127 then validUtf8 rest
    else if b < 194 then false
    else if b ≤ 223 then
      match rest with
      | b1 :: r => isCont b1 && validUtf8 r
      | [] => false
    else if b = 224 then
      match rest with
      | b1 :: b2 :: r => (160 ≤ b1 && b1 ≤ 191) && isCont b2 && validUtf8 r
      | _ => false
    else if b ≤ 236 then
      match rest with
      | b1 :: b2 :: r => isCont b1 && isCont b2 && validUtf8 r
      | _ => false
    else if b = 237 then
      match rest with
      | b1 :: b2 :: r => (128 ≤ b1 && b1 ≤ 159) && isCont b2 && validUtf8 r
      | _ => false
    else if b ≤ 239 then
      match rest with
      | b1 :: b2 :: r => isCont b1 && isCont b2 && validUtf8 r
      | _ => false
    else if b = 240 then
      match rest with
      | b1 :: b2 :: b3 :: r => (144 ≤ b1 && b1 ≤ 191) && isCont b2 && isCont b3 && validUtf8 r
      | _ => false
    else if b ≤ 243 then
      match rest with
      | b1 :: b2 :: b3 :: r => isCont b1 && isCont b2 && isCont b3 && validUtf8 r
      | _ => false
    else if b = 244 then
      match rest with
      | b1 :: b2 :: b3 :: r => (128 ≤ b1 && b1 ≤ 143) && isCont b2 && isCont b3 && validUtf8 r
      | _ => false
    else false

/-- Model of `parse_string` (deserialize.rs): `String::from_utf8` succeeds
exactly on valid UTF-8 and returns the same bytes. -/
def parse_string (bs : List Nat) : Except DecodeErr (List Nat) :=
  if validUtf8 bs then .ok bs else .error .cannotParse

/-! ## Reader primitives

`read_until_lf` models `BufRead::read_until(LF)`: the consumed line (up to and
including the first LF, or the whole input at EOF) and the rest of the stream.
`read_exact` models `read_exact` into a buffer of length `n`. -/

def read_until_lf : List Nat → List Nat × List Nat
  | [] => ([], [])
  | b :: rest =>
    if b = LF_BYTE then ([b], rest)
    else
      let (line, r) := read_until_lf rest
      (b :: line, r)

def read_exact (n : Nat) (input : List Nat) : Option (List Nat × List Nat) :=
  if n ≤ input.length then some (input.take n, input.drop n) else none

def is_crlf (x y : Nat) : Bool := x == CR_BYTE && y == LF_BYTE

/-! ## Serializer (sparrow-resp/src/serialize.rs, `encode_inner`) -/

mutual

def encode : Data → List Nat
  | .array items => 42 :: (natDecimal items.length ++ (CR_BYTE :: LF_BYTE :: encodeList items))
  | .bulkString s =>
      36 :: (natDecimal s.length ++ (CR_BYTE :: LF_BYTE :: (s ++ [CR_BYTE, LF_BYTE])))
  | .error msg => 45 :: (msg ++ [CR_BYTE, LF_BYTE])
  | .integer n => 58 :: (intDecimal n ++ [CR_BYTE, LF_BYTE])
  | .null => [36, 45, 49, CR_BYTE, LF_BYTE]
  | .nullArray => [42, 45, 49, CR_BYTE, LF_BYTE]
  | .simpleString s => 43 :: (s ++ [CR_BYTE, LF_BYTE])

termination_by structural d => d

def encodeList : List Data → List Nat
  | [] => []
  | d :: ds => encode d ++ encodeList ds
termination_by structural l => l

end

/-! ## Deserializer (sparrow-resp/src/deserialize.rs, `decode_inner`)

The Rust recursion is bounded only by the stream running out; the fuel
argument makes it structural, and the top-level `decode` supplies more fuel
than any input can consume.  `decodeItems` is the
`for _ in 0..n_bytes { decode_inner(reader) }` collection loop of the Array
arm, abstracted over the recursive call so that the recursion is structural
in the fuel. -/

def decodeItems (decodeOne : List Nat → Except DecodeErr (Data × List Nat)) :
    Nat → List Nat → Except DecodeErr (List Data × List Nat)
  | 0, input => .ok ([], input)
  | k + 1, input =>
    match decodeOne input with
    | .error e => .error e
    | .ok (d, rest) =>
      match decodeItems decodeOne k rest with
      | .error e => .error e
      | .ok (ds, rest2) => .ok (d :: ds, rest2)

def decode_inner : Nat → List Nat → Except DecodeErr (Data × List Nat)
  | 0, _ => .error .outOfFuel
  | fuel + 1, input =>
    let (buff, rest) := read_until_lf input
    if buff.isEmpty then .error .brokenPipe
    else if buff.length < 3 then .error (.inputTooShort buff.length)
    else if ¬ is_crlf (buff.getD (buff.length - 2) 0) (buff.getD (buff.length - 1) 0) then
      .error (.invalidCrlf (buff.getD (buff.length - 2) 0) (buff.getD (buff.length - 1) 0))
    else
      let bytes := (buff.take (buff.length - 2)).drop 1
      match buff.headD 0 with
      | 42 =>
        match parse_integer bytes with
        | .error e => .error e
        | .ok n =>
          if n = -1 then .ok (.nullArray, rest)
          else if n < -1 ∨ RESPONSE_MAX_SIZE < n then .error (.dataTooLarge n)
          else
            match decodeItems (decode_inner fuel) n.toNat rest with
            | .error e => .error e
            | .ok (ds, rest2) => .ok (.array ds, rest2)
      | 36 =>
        match parse_integer bytes with
        | .error e => .error e
        | .ok n =>
          if n = -1 then .ok (.null, rest)
          else if n < -1 ∨ RESPONSE_MAX_SIZE < n then .error (.dataTooLarge n)
          else
            match read_exact (n.toNat + 2) rest with
            | none => .error .unexpectedEof
            | some (sb, rest2) =>
              if ¬ is_crlf (sb.getD (sb.length - 2) 0) (sb.getD (sb.length - 1) 0) then
                .error (.invalidCrlf (buff.getD (buff.length - 2) 0)
                  (buff.getD (buff.length - 1) 0))
              else
                (parse_string (sb.take (sb.length - 2))).map (fun s => (.bulkString s, rest2))
      | 45 => (parse_string bytes).map (fun s => (.error s, rest))
      | 58 => (parse_integer bytes).map (fun n => (.integer n, rest))
      | 43 => (parse_string bytes).map (fun s => (.simpleString s, rest))
      | t => .error (.unknownHead t)

/-- Top-level `decode`: one frame from the stream, returning the value and the
unconsumed rest of the stream. -/
def decode (input : List Nat) : Except DecodeErr (Data × List Nat) :=
  decode_inner (input.length + 1) input

/-- UTF-8 bytes of a Lean string literal, for writing the byte strings of the
source conveniently. -/
def stringBytes (s : String) : List Nat := s.toUTF8.toList.map (fun b => b.toNat)

/-! ## Record (sparrow/src/core/egg.rs) -/

/-- A stored record: key, value and creation instant.  The `DateTime<Utc>`
taken from `SystemTime::now()` is represented by an abstract tick count
supplied by the caller. -/
structure Egg where
  key : List Nat
  value : List Nat
  created_at : Nat

def Egg.new (key value : List Nat) (now : Nat) : Egg :=
  { key := key, value := value, created_at := now }

/-- `impl PartialEq for Egg`: `self.key.eq(&other.key) && self.value.eq(&other.value)`. -/
def Egg.eq (a b : Egg) : Bool := a.key == b.key && a.value == b.value

/-! ## Store (sparrow/src/core/nest.rs) -/

/-- The in-memory store: a `HashMap<String, Egg>` represented by its lookup
function. -/
structure Nest where
  map : List Nat → Option Egg

def Nest.new : Nest := ⟨fun _ => none⟩

/-- `Nest::insert`: store the egg under its own key and return the egg
previously associated with that key (`HashMap::insert`). -/
def Nest.insert (nest : Nest) (egg : Egg) : Option Egg × Nest :=
  (nest.map egg.key, ⟨fun k => if k = egg.key then some egg else nest.map k⟩)

def Nest.get (nest : Nest) (key : List Nat) : Option Egg :=
  nest.map key

/-- `Nest::pop`: remove and return the entry for `key` (`HashMap::remove`).
`RemCommand::execute` calls this map removal (as `nest.rem`) and discards the
result. -/
def Nest.pop (nest : Nest) (key : List Nat) : Option Egg × Nest :=
  (nest.map key, ⟨fun k => if k = key then none else nest.map k⟩)

/-! ## Command layer (sparrow/src/core/commands/) -/

/-- The closed set of command objects produced by `parse_command`
(GetCommand, SetCommand, RemCommand). -/
inductive Command where
  | get (key : List Nat)
  | set (key value : List Nat)
  | rem (key : List Nat)
  deriving DecidableEq

/-- Parse failures of the command layer, one constructor per error message,
keeping the data the message interpolates. -/
inductive ParseErr where
  | notBulkString
  | notSpaceSeparated
  | commandNotFound (verb : List Nat)
  | wrongArgCount (cmd : List Nat) (expected got : Nat)
  deriving DecidableEq

def ParseErr.message : ParseErr → List Nat
  | .notBulkString => stringBytes "Cannot parse command: data is not a bulk string"
  | .notSpaceSeparated => stringBytes "Command not parsable: Input string not space-separated"
  | .commandNotFound verb => stringBytes "Command not found: " ++ verb
  | .wrongArgCount cmd e g =>
      stringBytes "Cannot parse " ++ cmd ++
      stringBytes " command arguments: Wrong number of arguments. Expected " ++
      natDecimal e ++ stringBytes ", got " ++ natDecimal g ++ stringBytes "."

def GETB : List Nat := [71, 69, 84]
def SETB : List Nat := [83, 69, 84]
def REMB : List Nat := [82, 69, 77]
def OKB : List Nat := [79, 75]

/-- `str::split(' ')` on the bytes of the input: substrings between space
bytes, empty pieces included; never returns the empty list. -/
def splitSpaces : List Nat → List (List Nat)
  | [] => [[]]
  | b :: rest =>
    if b = 32 then [] :: splitSpaces rest
    else
      match splitSpaces rest with
      | t :: ts => (b :: t) :: ts
      | [] => [[b]]

/-- `GetCommand::new`: exactly one argument (the key). -/
def GetCommand.new (args : List (List Nat)) : Except ParseErr Command :=
  match args with
  | [key] => .ok (.get key)
  | other => .error (.wrongArgCount GETB 1 other.length)

/-- `SetCommand::new`: exactly two arguments (key, value). -/
def SetCommand.new (args : List (List Nat)) : Except ParseErr Command :=
  match args with
  | [key, value] => .ok (.set key value)
  | other => .error (.wrongArgCount SETB 2 other.length)

/-- `RemCommand::new`: exactly one argument (the key). -/
def RemCommand.new (args : List (List Nat)) : Except ParseErr Command :=
  match args with
  | [key] => .ok (.rem key)
  | other => .error (.wrongArgCount REMB 1 other.length)

/-- `parse_string_command` (command.rs): split on spaces, first token selects
the verb, the rest are its arguments. -/
def parse_string_command (input : List Nat) : Except ParseErr Command :=
  match splitSpaces input with
  | [] => .error .notSpaceSeparated
  | name :: args =>
    if name = GETB then GetCommand.new args
    else if name = SETB then SetCommand.new args
    else if name = REMB then RemCommand.new args
    else .error (.commandNotFound name)

/-- `parse_command` (command.rs): only a BulkString can hold a command. -/
def parse_command : Data → Except ParseErr Command
  | .bulkString input => parse_string_command input
  | _ => .error .notBulkString

/-- `Command::execute` of the three command objects, against a store and the
current instant.  Returns the reply Data and the updated store. -/
def Command.execute (c : Command) (nest : Nest) (now : Nat) : Data × Nest :=
  match c with
  | .get key =>
    (match nest.get key with
     | some egg => Data.bulkString egg.value
     | none => Data.null,
     nest)
  | .set key value =>
    let (_prev, nest2) := nest.insert (Egg.new key value now)
    (Data.simpleString OKB, nest2)
  | .rem key =>
    let (_prev, nest2) := nest.pop key
    (Data.simpleString OKB, nest2)

/-! ## Engine (spec §4.4)

Modelled from the spec: the final `Engine::run` loop that consumes
`EngineInput` requests carrying a private reply channel (its construction is
visible in src/sparrow/src/tcp_server.rs, but the consuming engine itself is
not under src/, where only the superseded `run_engine` over a shared output
channel remains).  Per the spec: receive one Request, parse its Value into a
Command — on parse failure build `Error(message)` directly, skipping
execution; on success execute against the store; send the result on the
private reply channel, and a send failure is logged and otherwise ignored. -/

/-- One queued request: the decoded Value and whether the reply channel of the
issuing connection is still open (a closed channel makes the send fail). -/
structure Request where
  data : Data
  replyOpen : Bool

/-- Processing of one request body: parse, then execute or reflect the parse
failure as an `Error` value. -/
def engineStep (nest : Nest) (req : Data) (now : Nat) : Data × Nest :=
  match parse_command req with
  | .error e => (Data.error e.message, nest)
  | .ok c => c.execute nest now

/-- Modelled from the spec: the engine loop over its queued requests.  For
each request the reply is sent when the reply channel is open (`some`) and
dropped otherwise (`none`); either way the loop keeps processing. -/
def engineRun : Nest → Nat → List Request → Nest × List (Option Data)
  | nest, _, [] => (nest, [])
  | nest, now, r :: rs =>
    let (out, nest2) := engineStep nest r.data now
    let (nest3, outs) := engineRun nest2 now rs
    (nest3, (if r.replyOpen then some out else none) :: outs)

/-! ## Connection handler (sparrow/src/tcp_server.rs, `connection_loop`) -/

/-- The message of each io error, as `format!("{}", err)` renders it. -/
def DecodeErr.message : DecodeErr → List Nat
  | .brokenPipe => stringBytes "Broken pipe"
  | .inputTooShort n => stringBytes "Input is too short: " ++ natDecimal n
  | .invalidCrlf x y => stringBytes "Invalid CRLF: " ++ natDecimal x ++ natDecimal y
  | .dataTooLarge n =>
      stringBytes "Data is too large: " ++ intDecimal n ++
      stringBytes " > " ++ intDecimal RESPONSE_MAX_SIZE
  | .cannotParse => stringBytes "Cannot parse data"
  | .unknownHead t => stringBytes "Unknown head character: " ++ natDecimal t
  | .unexpectedEof => stringBytes "failed to fill whole buffer"
  | .outOfFuel => []

/-- Outcome of one `connection_loop` iteration: either the task ends (clean
close) or a reply is written, recording what was forwarded to the engine
(nothing on a protocol failure) and the bytes put on the wire. -/
inductive ConnStep where
  | closed
  | reply (out : Data) (forwarded : Option Data) (wire : List Nat)

/-- One iteration of `connection_loop`: decode a frame; on success forward it
to the engine and await the single reply (the engine and its reply channel
are abstracted into `engineReply`); on a BrokenPipe failure end the task; on
any other failure reply `Error(description)` without touching the engine.
The chosen reply is encoded and written to the socket. -/
def connection_step (input : List Nat) (engineReply : Data → Data) : ConnStep :=
  match decode input with
  | .ok (d, _rest) =>
    let out := engineReply d
    .reply out (some d) (encode out)
  | .error e =>
    match e.kind with
    | .brokenPipe => .closed
    | _ => .reply (Data.error e.message) none (encode (Data.error e.message))

/-! ## Round-trip side conditions

`wfData` cuts out exactly the constructible Rust values whose encoding decodes
back: integers in i64 range and valid UTF-8 strings (automatic for any Rust
value), BulkString and Array sizes within `RESPONSE_MAX_SIZE`, and no LF byte
inside a SimpleString or Error payload (LF would cut the line-oriented frame
short).  `sizeD` counts the `decode_inner` invocations a value costs, which
bounds the fuel the decoder needs. -/

mutual

def wfData : Data → Bool
  | .array items => decide (items.length ≤ 536870912) && wfList items
  | .bulkString s => decide (s.length ≤ 536870912) && validUtf8 s
  | .error s => validUtf8 s && decide (LF_BYTE ∉ s)
  | .integer n => decide (I64_MIN ≤ n) && decide (n ≤ I64_MAX)
  | .null => true
  | .nullArray => true
  | .simpleString s => validUtf8 s && decide (LF_BYTE ∉ s)
termination_by structural d => d

def wfList : List Data → Bool
  | [] => true
  | d :: ds => wfData d && wfList ds
termination_by structural l => l

end

mutual

def sizeD : Data → Nat
  | .array items => 1 + sizeL items
  | .bulkString _ => 1
  | .error _ => 1
  | .integer _ => 1
  | .null => 1
  | .nullArray => 1
  | .simpleString _ => 1
termination_by structural d => d

def sizeL : List Data → Nat
  | [] => 0
  | d :: ds => sizeD d + sizeL ds
termination_by structural l => l

end

/-! ## Claims about the store and command layer -/

/-- C2: SET k v then GET k returns BulkString v; GET on a store where the key
was never set (the fresh store, or any store mapping the key to nothing)
returns Null; REM always returns SimpleString OK whether or not the key is
present, and a subsequent GET returns Null. -/
theorem set_get_rem_roundtrip :
    (∀ (nest : Nest) (k v : List Nat) (now now2 : Nat),
      (Command.execute (.get k) (Command.execute (.set k v) nest now).2 now2).1
        = Data.bulkString v) ∧
    (∀ (k : List Nat) (now : Nat),
      (Command.execute (.get k) Nest.new now).1 = Data.null) ∧
    (∀ (nest : Nest) (k : List Nat) (now : Nat), nest.map k = none →
      (Command.execute (.get k) nest now).1 = Data.null) ∧
    (∀ (nest : Nest) (k : List Nat) (now : Nat),
      (Command.execute (.rem k) nest now).1 = Data.simpleString OKB) ∧
    (∀ (nest : Nest) (k : List Nat) (now now2 : Nat),
      (Command.execute (.get k) (Command.execute (.rem k) nest now).2 now2).1
        = Data.null) := by
  refine ⟨?_, ?_, ?_, ?_, ?_⟩
  · intro nest k v now now2
    simp [Command.execute, Nest.insert, Nest.get, Egg.new]
  · intro k now
    simp [Command.execute, Nest.get, Nest.new]
  · intro nest k now h
    simp [Command.execute, Nest.get, h]
  · intro nest k now
    simp [Command.execute]
  · intro nest k now now2
    simp [Command.execute, Nest.pop, Nest.get]

theorem set_get_rem_roundtrip_witness :
    Nest.new.map [5] = none ∧ (Command.execute (.get [5]) Nest.new 0).1 = Data.null :=
  ⟨rfl, set_get_rem_roundtrip.2.2.1 Nest.new [5] 0 rfl⟩

/-- C6: executing a successfully parsed command never yields an Error value:
Set and Rem always return SimpleString OK, and Get returns either the stored
BulkString or Null. -/
theorem execute_no_error :
    ∀ (c : Command) (nest : Nest) (now : Nat),
      (match c with
       | .set _ _ => (c.execute nest now).1 = Data.simpleString OKB
       | .rem _ => (c.execute nest now).1 = Data.simpleString OKB
       | .get k =>
         (c.execute nest now).1 = Data.null ∨
         ∃ egg, nest.get k = some egg ∧ (c.execute nest now).1 = Data.bulkString egg.value) ∧
      (∀ msg, (c.execute nest now).1 ≠ Data.error msg) := by
  intro c nest now
  cases c with
  | get k =>
    refine ⟨?_, ?_⟩
    · cases h : nest.get k with
      | none => left; simp [Command.execute, h]
      | some egg => right; exact ⟨egg, h, by simp [Command.execute, h]⟩
    · intro msg
      cases h : nest.get k <;> simp [Command.execute, h]
  | set k v => exact ⟨rfl, by intro msg; simp [Command.execute]⟩
  | rem k => exact ⟨rfl, by intro msg; simp [Command.execute]⟩

theorem execute_no_error_witness :
    (Command.execute (.set [1] [2]) Nest.new 0).1 = Data.simpleString OKB ∧
    (Command.execute (.set [1] [2]) Nest.new 0).1 ≠ Data.error [] :=
  ⟨(execute_no_error (.set [1] [2]) Nest.new 0).1,
   (execute_no_error (.set [1] [2]) Nest.new 0).2 []⟩

/-- C10: Egg equality compares only key and value and ignores the creation
timestamp, so two records for the same key and value created at different
times are equal. -/
theorem egg_partialeq_ignores_timestamp :
    (∀ a b : Egg, Egg.eq a b = true ↔ (a.key = b.key ∧ a.value = b.value)) ∧
    (∀ (k v : List Nat) (t1 t2 : Nat), Egg.eq (Egg.new k v t1) (Egg.new k v t2) = true) := by
  constructor
  · intro a b
    simp [Egg.eq]
  · intro k v t1 t2
    simp [Egg.eq, Egg.new]

/-- C7 counterexample: `Nest::insert` does return the previous Record on
overwrite.  Inserting a second egg under the key `[107]` returns `some` of
the first egg, not nothing. -/
theorem nest_insert_returns_previous_egg :
    ((Nest.new.insert (Egg.new [107] [118] 0)).2.insert (Egg.new [107] [119] 1)).1
      = some (Egg.new [107] [118] 0) := rfl

/-- C7 (amended): the SET path constructs a new Record carrying the current
time and inserts it under the key, replacing any prior Record; the store
level `Nest::insert` returns the previous Record for that key (`some` on
overwrite, `none` otherwise) and `SetCommand::execute` discards that return
value, answering only SimpleString OK. -/
theorem set_inserts_with_time_and_returns_previous
    (nest : Nest) (k v : List Nat) (now : Nat) :
    (nest.insert (Egg.new k v now)).1 = nest.map k ∧
    (nest.insert (Egg.new k v now)).2.map k = some (Egg.new k v now) ∧
    (∀ k2, k2 ≠ k → (nest.insert (Egg.new k v now)).2.map k2 = nest.map k2) ∧
    (Command.execute (.set k v) nest now).1 = Data.simpleString OKB ∧
    (Command.execute (.set k v) nest now).2 = (nest.insert (Egg.new k v now)).2 := by
  refine ⟨rfl, ?_, ?_, rfl, rfl⟩
  · simp [Nest.insert, Egg.new]
  · intro k2 hk
    simp [Nest.insert, Egg.new, hk]

theorem set_inserts_with_time_witness :
    (Nest.new.insert (Egg.new [1] [2] 0)).2.map [3] = Nest.new.map [3] :=
  (set_inserts_with_time_and_returns_previous Nest.new [1] [2] 0).2.2.1 [3] (by decide)

/-- C8 (engine modelled from the spec, see `engineRun`): every queued request
is processed and a failed send of the reply never stops the loop: the output
list covers every request, and the store evolution is identical whether or
not any reply channel is closed; after a request whose send fails the loop
keeps going on the remaining requests. -/
theorem engine_ignores_send_failure :
    ∀ (nest : Nest) (now : Nat) (reqs : List Request),
      ((engineRun nest now reqs).2.length = reqs.length) ∧
      ((engineRun nest now reqs).1 =
        (engineRun nest now (reqs.map (fun r => { r with replyOpen := true }))).1) ∧
      (∀ r rs, reqs = r :: rs →
        engineRun nest now reqs =
          ((engineRun (engineStep nest r.data now).2 now rs).1,
           (if r.replyOpen then some (engineStep nest r.data now).1 else none)
             :: (engineRun (engineStep nest r.data now).2 now rs).2)) := by
  intro nest now reqs
  induction reqs generalizing nest with
  | nil => exact ⟨rfl, rfl, by intro r rs h; cases h⟩
  | cons r rs ih =>
    refine ⟨?_, ?_, ?_⟩
    · simpa [engineRun] using ((ih (engineStep nest r.data now).2).1)
    · simpa [engineRun] using ((ih (engineStep nest r.data now).2).2.1)
    · intro r2 rs2 h
      cases h
      simp [engineRun]

theorem engine_ignores_send_failure_witness :
    engineRun Nest.new 0 [{ data := Data.null, replyOpen := false }] = (Nest.new, [none]) :=
  (engine_ignores_send_failure Nest.new 0 _).2.2 { data := Data.null, replyOpen := false } [] rfl

/-- C5: any Value other than a BulkString is rejected as not a bulk string;
a BulkString is split on spaces, the first token must be exactly GET, SET or
REM (anything else fails naming the verb), GET and REM take exactly one
further token and SET exactly two, a wrong count failing with the expected
and actual argument counts. -/
theorem parse_command_classification :
    (∀ items, parse_command (.array items) = .error .notBulkString) ∧
    (∀ s, parse_command (.error s) = .error .notBulkString) ∧
    (∀ n, parse_command (.integer n) = .error .notBulkString) ∧
    parse_command .null = .error .notBulkString ∧
    parse_command .nullArray = .error .notBulkString ∧
    (∀ s, parse_command (.simpleString s) = .error .notBulkString) ∧
    (∀ (text verb : List Nat) (args : List (List Nat)),
      splitSpaces text = verb :: args →
      parse_command (.bulkString text) =
        if verb = GETB then
          if args.length = 1 then .ok (.get (args.headD []))
          else .error (.wrongArgCount GETB 1 args.length)
        else if verb = SETB then
          if args.length = 2 then .ok (.set (args.headD []) ((args.drop 1).headD []))
          else .error (.wrongArgCount SETB 2 args.length)
        else if verb = REMB then
          if args.length = 1 then .ok (.rem (args.headD []))
          else .error (.wrongArgCount REMB 1 args.length)
        else .error (.commandNotFound verb)) := by
  refine ⟨fun _ => rfl, fun _ => rfl, fun _ => rfl, rfl, rfl, fun _ => rfl, ?_⟩
  intro text verb args h
  show parse_string_command text = _
  rw [parse_string_command, h]
  show (if verb = GETB then GetCommand.new args
    else if verb = SETB then SetCommand.new args
    else if verb = REMB then RemCommand.new args
    else Except.error (ParseErr.commandNotFound verb)) = _
  by_cases hg : verb = GETB
  · simp only [hg, if_pos rfl]
    rcases args with _ | ⟨a, _ | ⟨b, t⟩⟩ <;> simp [GetCommand.new]
  · rw [if_neg hg, if_neg hg]
    by_cases hs : verb = SETB
    · simp only [hs, if_pos rfl]
      rcases args with _ | ⟨a, _ | ⟨b, _ | ⟨c, t⟩⟩⟩ <;> simp [SetCommand.new]
    · rw [if_neg hs, if_neg hs]
      by_cases hr : verb = REMB
      · simp only [hr, if_pos rfl]
        rcases args with _ | ⟨a, _ | ⟨b, t⟩⟩ <;> simp [RemCommand.new]
      · rw [if_neg hr, if_neg hr]

theorem parse_command_classification_witness :
    splitSpaces [71, 69, 84, 32, 107] = [[71, 69, 84], [107]] ∧
    parse_command (.bulkString [71, 69, 84, 32, 107]) = .ok (.get [107]) :=
  ⟨rfl, parse_command_classification.2.2.2.2.2.2 [71, 69, 84, 32, 107] [71, 69, 84] [[107]] rfl⟩

/-! ## Facts about the reader and the frame head -/

theorem read_until_lf_of_append (xs r : List Nat) (h : LF_BYTE ∉ xs) :
    read_until_lf (xs ++ LF_BYTE :: r) = (xs ++ [LF_BYTE], r) := by
  induction xs with
  | nil => simp [read_until_lf]
  | cons b t ih =>
    have hb : ¬ b = LF_BYTE := fun hh => h (by simp [hh])
    have ht : LF_BYTE ∉ t := fun hh => h (List.mem_cons_of_mem _ hh)
    simp [read_until_lf, hb, ih ht]

theorem getD_append_two_fst (xs : List Nat) (a b : Nat) :
    (xs ++ [a, b]).getD xs.length 0 = a := by
  induction xs with
  | nil => rfl
  | cons x t ih => simpa using ih

theorem getD_append_two_snd (xs : List Nat) (a b : Nat) :
    (xs ++ [a, b]).getD (xs.length + 1) 0 = b := by
  induction xs with
  | nil => rfl
  | cons x t ih => simpa using ih

/-- Evaluation of `decode_inner` on a well-framed line `tag payload CR LF`:
the framing checks pass and the result is the dispatch on the tag byte. -/
theorem decode_inner_line (fuel tag : Nat) (payload rest : List Nat)
    (hLF : LF_BYTE ∉ payload) (htag : tag ≠ LF_BYTE) :
    decode_inner (fuel + 1) (tag :: (payload ++ CR_BYTE :: LF_BYTE :: rest)) =
      match tag with
      | 42 =>
        (match parse_integer payload with
         | .error e => .error e
         | .ok n =>
           if n = -1 then .ok (.nullArray, rest)
           else if n < -1 ∨ RESPONSE_MAX_SIZE < n then .error (.dataTooLarge n)
           else
             match decodeItems (decode_inner fuel) n.toNat rest with
             | .error e => .error e
             | .ok (ds, rest2) => .ok (.array ds, rest2))
      | 36 =>
        (match parse_integer payload with
         | .error e => .error e
         | .ok n =>
           if n = -1 then .ok (.null, rest)
           else if n < -1 ∨ RESPONSE_MAX_SIZE < n then .error (.dataTooLarge n)
           else
             match read_exact (n.toNat + 2) rest with
             | none => .error .unexpectedEof
             | some (sb, rest2) =>
               if ¬ is_crlf (sb.getD (sb.length - 2) 0) (sb.getD (sb.length - 1) 0) then
                 .error (.invalidCrlf CR_BYTE LF_BYTE)
               else
                 (parse_string (sb.take (sb.length - 2))).map (fun s => (.bulkString s, rest2)))
      | 45 => (parse_string payload).map (fun s => (.error s, rest))
      | 58 => (parse_integer payload).map (fun n => (.integer n, rest))
      | 43 => (parse_string payload).map (fun s => (.simpleString s, rest))
      | t => .error (.unknownHead t) := by
  have hx : LF_BYTE ∉ tag :: (payload ++ [CR_BYTE]) := by
    intro hm
    rcases List.mem_cons.mp hm with h1 | h2
    · exact htag h1.symm
    · rcases List.mem_append.mp h2 with h3 | h4
      · exact hLF h3
      · simp at h4
        exact absurd h4 (by decide)
  have hread : read_until_lf (tag :: (payload ++ CR_BYTE :: LF_BYTE :: rest))
      = (tag :: (payload ++ [CR_BYTE, LF_BYTE]), rest) := by
    have h0 := read_until_lf_of_append (tag :: (payload ++ [CR_BYTE])) rest hx
    simpa using h0
  have hlen : (tag :: (payload ++ [CR_BYTE, LF_BYTE])).length = payload.length + 3 := by
    simp
  have hidx : payload.length + 3 - 2 = payload.length + 1 := by omega
  have hidy : payload.length + 3 - 1 = payload.length + 2 := by omega
  have c3 : (tag :: (payload ++ [CR_BYTE, LF_BYTE])).getD (payload.length + 1) 0 = CR_BYTE := by
    rw [List.getD_cons_succ]
    exact getD_append_two_fst payload CR_BYTE LF_BYTE
  have c4 : (tag :: (payload ++ [CR_BYTE, LF_BYTE])).getD (payload.length + 2) 0 = LF_BYTE := by
    rw [List.getD_cons_succ]
    exact getD_append_two_snd payload CR_BYTE LF_BYTE
  have c6 : (tag :: (payload ++ [CR_BYTE, LF_BYTE])).take (payload.length + 1)
      = tag :: payload := by
    rw [List.take_succ_cons]
    congr 1
    exact List.take_left payload [CR_BYTE, LF_BYTE]
  simp only [decode_inner, hread, hlen, hidx, hidy, c3, c4, c6, List.isEmpty_cons,
    Bool.false_eq_true, if_false, List.headD_cons]
  rw [if_neg (by omega : ¬ (payload.length + 3 < 3))]
  rw [if_neg (by simp [is_crlf, CR_BYTE, LF_BYTE])]
  simp only [List.drop_succ_cons, List.drop_zero]
  split <;> first | rfl | (split <;> first | rfl | simp_all)

/-- C4: classification of the first-line framing of `decode`: an empty read
fails BrokenPipe; a line shorter than 3 bytes fails InvalidInput; a line not
ending in CR LF fails InvalidInput; a first byte other than the five type
tags fails InvalidInput naming the unknown tag. -/
theorem decode_first_line_classification :
    (∀ input : List Nat, input = [] →
      decode input = .error .brokenPipe ∧ DecodeErr.brokenPipe.kind = .brokenPipe) ∧
    (∀ (input line rest : List Nat), read_until_lf input = (line, rest) →
      line ≠ [] → line.length < 3 →
      decode input = .error (.inputTooShort line.length) ∧
      (DecodeErr.inputTooShort line.length).kind = .invalidInput) ∧
    (∀ (input line rest : List Nat), read_until_lf input = (line, rest) →
      3 ≤ line.length →
      is_crlf (line.getD (line.length - 2) 0) (line.getD (line.length - 1) 0) = false →
      decode input = .error (.invalidCrlf (line.getD (line.length - 2) 0)
        (line.getD (line.length - 1) 0)) ∧
      (DecodeErr.invalidCrlf (line.getD (line.length - 2) 0)
        (line.getD (line.length - 1) 0)).kind = .invalidInput) ∧
    (∀ (tag : Nat) (payload rest : List Nat), LF_BYTE ∉ payload → tag ≠ LF_BYTE →
      tag ≠ 42 → tag ≠ 36 → tag ≠ 45 → tag ≠ 58 → tag ≠ 43 →
      decode (tag :: (payload ++ CR_BYTE :: LF_BYTE :: rest)) = .error (.unknownHead tag) ∧
      (DecodeErr.unknownHead tag).kind = .invalidInput) := by
  refine ⟨?_, ?_, ?_, ?_⟩
  · rintro input rfl
    exact ⟨rfl, rfl⟩
  · intro input line rest h hne hlt
    refine ⟨?_, rfl⟩
    have hie : line.isEmpty = false := by
      cases line
      · exact absurd rfl hne
      · rfl
    simp only [decode, decode_inner, h, hie, Bool.false_eq_true, if_false, if_pos hlt]
  · intro input line rest h h3 hcrlf
    refine ⟨?_, rfl⟩
    have hie : line.isEmpty = false := by
      cases line
      · simp at h3
      · rfl
    simp only [decode, decode_inner, h, hie, Bool.false_eq_true, if_false, hcrlf]
    rw [if_neg (by omega), if_pos (by simp)]
  · intro tag payload rest hLF htag h42 h36 h45 h58 h43
    refine ⟨?_, rfl⟩
    unfold decode
    rw [decode_inner_line _ _ _ _ hLF htag]
    split <;> first | rfl | simp_all

theorem decode_first_line_classification_witness :
    read_until_lf [97] = ([97], []) ∧ [97] ≠ ([] : List Nat) ∧
    decode [97] = .error (.inputTooShort 1) :=
  ⟨rfl, by decide,
   (decode_first_line_classification.2.1 [97] [97] [] rfl (by decide) (by decide)).1⟩

/-- C3: a declared Array or BulkString size field `n` is accepted only for
`-1 ≤ n ≤ 536870912`: `n = -1` yields the NullArray/Null sentinel, any
`n < -1` or `n > 536870912` fails with an InvalidData failure, and a decode
that succeeds on such a header implies the bounds; in particular the bulk
length 536870913 is rejected (see the witness). -/
theorem decode_size_field_bounds :
    ∀ (payload tail : List Nat) (n : Int),
      parse_integer payload = .ok n → LF_BYTE ∉ payload →
      ((n = -1 →
        decode (36 :: (payload ++ CR_BYTE :: LF_BYTE :: tail)) = .ok (.null, tail) ∧
        decode (42 :: (payload ++ CR_BYTE :: LF_BYTE :: tail)) = .ok (.nullArray, tail)) ∧
      ((n < -1 ∨ RESPONSE_MAX_SIZE < n) →
        decode (36 :: (payload ++ CR_BYTE :: LF_BYTE :: tail)) = .error (.dataTooLarge n) ∧
        decode (42 :: (payload ++ CR_BYTE :: LF_BYTE :: tail)) = .error (.dataTooLarge n) ∧
        (DecodeErr.dataTooLarge n).kind = .invalidData) ∧
      (∀ d r2, decode (36 :: (payload ++ CR_BYTE :: LF_BYTE :: tail)) = .ok (d, r2) →
        -1 ≤ n ∧ n ≤ RESPONSE_MAX_SIZE) ∧
      (∀ d r2, decode (42 :: (payload ++ CR_BYTE :: LF_BYTE :: tail)) = .ok (d, r2) →
        -1 ≤ n ∧ n ≤ RESPONSE_MAX_SIZE)) := by
  intro payload tail n hparse hLF
  have h36 : decode (36 :: (payload ++ CR_BYTE :: LF_BYTE :: tail)) =
      (if n = -1 then .ok (.null, tail)
       else if n < -1 ∨ RESPONSE_MAX_SIZE < n then .error (.dataTooLarge n)
       else
         match read_exact (n.toNat + 2) tail with
         | none => .error .unexpectedEof
         | some (sb, rest2) =>
           if ¬ is_crlf (sb.getD (sb.length - 2) 0) (sb.getD (sb.length - 1) 0) then
             .error (.invalidCrlf CR_BYTE LF_BYTE)
           else
             (parse_string (sb.take (sb.length - 2))).map (fun s => (.bulkString s, rest2))) := by
    unfold decode
    rw [decode_inner_line _ _ _ _ hLF (by decide), hparse]
  have h42 : decode (42 :: (payload ++ CR_BYTE :: LF_BYTE :: tail)) =
      (if n = -1 then .ok (.nullArray, tail)
       else if n < -1 ∨ RESPONSE_MAX_SIZE < n then .error (.dataTooLarge n)
       else
         match decodeItems
             (decode_inner (42 :: (payload ++ CR_BYTE :: LF_BYTE :: tail)).length)
             n.toNat tail with
         | .error e => .error e
         | .ok (ds, rest2) => .ok (.array ds, rest2)) := by
    unfold decode
    rw [decode_inner_line _ _ _ _ hLF (by decide), hparse]
  refine ⟨?_, ?_, ?_, ?_⟩
  · rintro rfl
    rw [h36, h42]
    exact ⟨if_pos rfl, if_pos rfl⟩
  · intro hout
    have hn1 : n ≠ -1 := by rcases hout with h | h <;> [omega; (unfold RESPONSE_MAX_SIZE at h; omega)]
    rw [h36, h42, if_neg hn1, if_neg hn1, if_pos hout, if_pos hout]
    exact ⟨rfl, rfl, rfl⟩
  · intro d r2 hok
    by_contra hcon
    push_neg at hcon
    have hout : n < -1 ∨ RESPONSE_MAX_SIZE < n := by
      rcases lt_or_le n (-1) with h | h
      · exact Or.inl h
      · exact Or.inr (hcon h)
    have hn1 : n ≠ -1 := by rcases hout with h | h <;> [omega; (unfold RESPONSE_MAX_SIZE at h; omega)]
    rw [h36, if_neg hn1, if_pos hout] at hok
    cases hok
  · intro d r2 hok
    by_contra hcon
    push_neg at hcon
    have hout : n < -1 ∨ RESPONSE_MAX_SIZE < n := by
      rcases lt_or_le n (-1) with h | h
      · exact Or.inl h
      · exact Or.inr (hcon h)
    have hn1 : n ≠ -1 := by rcases hout with h | h <;> [omega; (unfold RESPONSE_MAX_SIZE at h; omega)]
    rw [h42, if_neg hn1, if_pos hout] at hok
    cases hok

theorem decode_size_field_bounds_witness :
    parse_integer [53, 51, 54, 56, 55, 48, 57, 49, 51] = .ok 536870913 ∧
    decode [36, 53, 51, 54, 56, 55, 48, 57, 49, 51, 13, 10] =
      .error (.dataTooLarge 536870913) ∧
    (DecodeErr.dataTooLarge 536870913).kind = .invalidData ∧
    decode [36, 45, 49, 13, 10] = .ok (.null, []) := by
  refine ⟨rfl, ?_, rfl, ?_⟩
  · exact ((decode_size_field_bounds [53, 51, 54, 56, 55, 48, 57, 49, 51] [] 536870913
      rfl (by decide)).2.1 (by decide)).1
  · exact ((decode_size_field_bounds [45, 49] [] (-1) rfl (by decide)).1 rfl).1

/-- C9: one connection-loop iteration classifies the decode outcome: a
BrokenPipe failure ends the task with no reply; any other decode failure
bypasses the engine and sends its description back as an Error value; a
decoded Value is forwarded to the engine and the single reply is encoded and
written back. -/
theorem connection_loop_decode_outcomes :
    ∀ (input : List Nat) (engineReply : Data → Data),
      (∀ e, decode input = .error e → e.kind = .brokenPipe →
        connection_step input engineReply = .closed) ∧
      (∀ e, decode input = .error e → e.kind ≠ .brokenPipe →
        connection_step input engineReply =
          .reply (Data.error e.message) none (encode (Data.error e.message))) ∧
      (∀ d rest, decode input = .ok (d, rest) →
        connection_step input engineReply =
          .reply (engineReply d) (some d) (encode (engineReply d))) := by
  intro input engineReply
  refine ⟨?_, ?_, ?_⟩
  · intro e h hk
    unfold connection_step
    simp only [h, hk]
  · intro e h hk
    unfold connection_step
    simp only [h]
  · intro d rest h
    unfold connection_step
    simp only [h]

theorem connection_loop_decode_outcomes_witness :
    decode [] = .error .brokenPipe ∧
    connection_step [] (fun d => d) = .closed :=
  ⟨rfl, (connection_loop_decode_outcomes [] (fun d => d)).1 .brokenPipe rfl rfl⟩


/-! ## Decimal numerals round-trip -/

theorem parseDigitsAux_append (acc : Nat) (xs ys : List Nat) :
    parseDigitsAux acc (xs ++ ys) =
      match parseDigitsAux acc xs with
      | some v => parseDigitsAux v ys
      | none => none := by
  induction xs generalizing acc with
  | nil => rfl
  | cons b t ih =>
    simp only [List.cons_append, parseDigitsAux]
    cases digitVal b with
    | some d => exact ih _
    | none => rfl

theorem parse_natDecimalGo (fuel : Nat) :
    ∀ n acc, n ≤ fuel →
      parseDigitsAux acc (natDecimalGo fuel n) =
        some (acc * 10 ^ (natDecimalGo fuel n).length + n) := by
  induction fuel with
  | zero =>
    intro n acc hn
    have : n = 0 := by omega
    subst this
    simp [natDecimalGo, parseDigitsAux]
  | succ f ih =>
    intro n acc hn
    cases n with
    | zero => simp [natDecimalGo, parseDigitsAux]
    | succ m =>
      have hq : (m + 1) / 10 ≤ f := by
        have : (m + 1) / 10 < m + 1 := Nat.div_lt_self (Nat.succ_pos m) (by decide)
        omega
      rw [natDecimalGo, parseDigitsAux_append, ih _ acc hq]
      have hdv : digitVal ((m + 1) % 10 + 48) = some ((m + 1) % 10) := by
        have hr : (m + 1) % 10 < 10 := Nat.mod_lt _ (by decide)
        unfold digitVal
        rw [if_pos (by omega)]
        congr 1
      simp only [parseDigitsAux, hdv, List.length_append, List.length_cons,
        List.length_nil]
      congr 1
      have hdm := Nat.div_add_mod (m + 1) 10
      calc (acc * 10 ^ (natDecimalGo f ((m + 1) / 10)).length + (m + 1) / 10) * 10
          + (m + 1) % 10
        = acc * (10 ^ (natDecimalGo f ((m + 1) / 10)).length * 10)
          + (10 * ((m + 1) / 10) + (m + 1) % 10) := by ring
      _ = acc * 10 ^ ((natDecimalGo f ((m + 1) / 10)).length + (0 + 1)) + (m + 1) := by
        rw [hdm, pow_succ]

theorem parseDigits_natDecimal (n : Nat) : parseDigits (natDecimal n) = some n := by
  by_cases h0 : n = 0
  · subst h0
    rfl
  · have hgo := parse_natDecimalGo n n 0 le_rfl
    have hne : natDecimalGo n n ≠ [] := by
      cases n with
      | zero => exact absurd rfl h0
      | succ m => simp [natDecimalGo]
    obtain ⟨b, t, hbt⟩ := List.exists_cons_of_ne_nil hne
    unfold natDecimal
    rw [if_neg h0]
    unfold natDecimalAux
    rw [hbt]
    show parseDigitsAux 0 (b :: t) = some n
    rw [← hbt, hgo]
    simp

theorem natDecimalGo_digit_bounds (fuel : Nat) :
    ∀ n b, b ∈ natDecimalGo fuel n → 48 ≤ b ∧ b ≤ 57 := by
  induction fuel with
  | zero => intro n b hb; cases n <;> simp [natDecimalGo] at hb
  | succ f ih =>
    intro n b hb
    cases n with
    | zero => simp [natDecimalGo] at hb
    | succ m =>
      rw [natDecimalGo] at hb
      rcases List.mem_append.mp hb with h1 | h2
      · exact ih _ _ h1
      · simp at h2
        have : (m + 1) % 10 < 10 := Nat.mod_lt _ (by decide)
        omega

theorem natDecimal_digit_bounds (n b : Nat) (h : b ∈ natDecimal n) :
    48 ≤ b ∧ b ≤ 57 := by
  unfold natDecimal at h
  split at h
  · simp at h
    omega
  · exact natDecimalGo_digit_bounds n n b h

theorem natDecimal_no_lf (n : Nat) : LF_BYTE ∉ natDecimal n := by
  intro h
  have hb := natDecimal_digit_bounds n LF_BYTE h
  revert hb
  decide

theorem intDecimal_no_lf (i : Int) : LF_BYTE ∉ intDecimal i := by
  unfold intDecimal
  split
  · intro h
    rcases List.mem_cons.mp h with h1 | h2
    · exact absurd h1 (by decide)
    · exact natDecimal_no_lf _ h2
  · exact natDecimal_no_lf _

theorem natDecimal_ne_nil (n : Nat) : natDecimal n ≠ [] := by
  unfold natDecimal
  split
  · simp
  · rename_i h0
    unfold natDecimalAux
    cases n with
    | zero => exact absurd rfl h0
    | succ m => simp [natDecimalGo]

theorem parse_integer_cons (b : Nat) (t : List Nat) :
    parse_integer (b :: t) =
      match (if b = 43 then (parseDigits t).map (fun n => (n : Int))
             else if b = 45 then (parseDigits t).map (fun n => -(n : Int))
             else (parseDigits (b :: t)).map (fun n => (n : Int))) with
      | none => .error .cannotParse
      | some v => if I64_MIN ≤ v ∧ v ≤ I64_MAX then .ok v else .error .cannotParse := rfl

theorem parse_integer_natDecimal (m : Nat) (hm : (m : Int) ≤ I64_MAX) :
    parse_integer (natDecimal m) = .ok m := by
  obtain ⟨b, t, hbt⟩ := List.exists_cons_of_ne_nil (natDecimal_ne_nil m)
  have hb : 48 ≤ b ∧ b ≤ 57 :=
    natDecimal_digit_bounds m b (by rw [hbt]; exact List.mem_cons_self _ _)
  rw [hbt, parse_integer_cons, if_neg (by omega), if_neg (by omega), ← hbt,
    parseDigits_natDecimal]
  have hmin : I64_MIN ≤ (m : Int) :=
    le_trans (by decide : I64_MIN ≤ 0) (Int.natCast_nonneg m)
  show (if I64_MIN ≤ (m : Int) ∧ (m : Int) ≤ I64_MAX then Except.ok ((m : Nat) : Int)
    else Except.error DecodeErr.cannotParse) = Except.ok ((m : Nat) : Int)
  rw [if_pos ⟨hmin, hm⟩]

theorem parse_integer_intDecimal (i : Int) (h1 : I64_MIN ≤ i) (h2 : i ≤ I64_MAX) :
    parse_integer (intDecimal i) = .ok i := by
  unfold intDecimal
  split
  · rename_i hi
    rw [parse_integer_cons, if_neg (by decide), if_pos rfl, parseDigits_natDecimal]
    show (if I64_MIN ≤ -((i.natAbs : Nat) : Int) ∧ -((i.natAbs : Nat) : Int) ≤ I64_MAX then
        Except.ok (-((i.natAbs : Nat) : Int))
      else Except.error DecodeErr.cannotParse) = Except.ok i
    rw [show -((i.natAbs : Nat) : Int) = i from by omega, if_pos ⟨h1, h2⟩]
  · rename_i hi
    have hcast : ((i.toNat : Nat) : Int) = i := Int.toNat_of_nonneg (by omega)
    have h := parse_integer_natDecimal i.toNat (by rw [hcast]; exact h2)
    rw [hcast] at h
    exact h


/-! ## Per-tag frame corollaries -/

theorem decode_inner_line_36 (fuel : Nat) (payload rest : List Nat)
    (hLF : LF_BYTE ∉ payload) :
    decode_inner (fuel + 1) (36 :: (payload ++ CR_BYTE :: LF_BYTE :: rest)) =
      match parse_integer payload with
      | .error e => .error e
      | .ok n =>
        if n = -1 then .ok (.null, rest)
        else if n < -1 ∨ RESPONSE_MAX_SIZE < n then .error (.dataTooLarge n)
        else
          match read_exact (n.toNat + 2) rest with
          | none => .error .unexpectedEof
          | some (sb, rest2) =>
            if ¬ is_crlf (sb.getD (sb.length - 2) 0) (sb.getD (sb.length - 1) 0) then
              .error (.invalidCrlf CR_BYTE LF_BYTE)
            else
              (parse_string (sb.take (sb.length - 2))).map (fun s => (.bulkString s, rest2)) := by
  rw [decode_inner_line fuel 36 payload rest hLF (by decide)]

theorem decode_inner_line_42 (fuel : Nat) (payload rest : List Nat)
    (hLF : LF_BYTE ∉ payload) :
    decode_inner (fuel + 1) (42 :: (payload ++ CR_BYTE :: LF_BYTE :: rest)) =
      match parse_integer payload with
      | .error e => .error e
      | .ok n =>
        if n = -1 then .ok (.nullArray, rest)
        else if n < -1 ∨ RESPONSE_MAX_SIZE < n then .error (.dataTooLarge n)
        else
          match decodeItems (decode_inner fuel) n.toNat rest with
          | .error e => .error e
          | .ok (ds, rest2) => .ok (.array ds, rest2) := by
  rw [decode_inner_line fuel 42 payload rest hLF (by decide)]

theorem decode_inner_line_43 (fuel : Nat) (payload rest : List Nat)
    (hLF : LF_BYTE ∉ payload) :
    decode_inner (fuel + 1) (43 :: (payload ++ CR_BYTE :: LF_BYTE :: rest)) =
      (parse_string payload).map (fun s => (.simpleString s, rest)) := by
  rw [decode_inner_line fuel 43 payload rest hLF (by decide)]

theorem decode_inner_line_45 (fuel : Nat) (payload rest : List Nat)
    (hLF : LF_BYTE ∉ payload) :
    decode_inner (fuel + 1) (45 :: (payload ++ CR_BYTE :: LF_BYTE :: rest)) =
      (parse_string payload).map (fun s => (.error s, rest)) := by
  rw [decode_inner_line fuel 45 payload rest hLF (by decide)]

theorem decode_inner_line_58 (fuel : Nat) (payload rest : List Nat)
    (hLF : LF_BYTE ∉ payload) :
    decode_inner (fuel + 1) (58 :: (payload ++ CR_BYTE :: LF_BYTE :: rest)) =
      (parse_integer payload).map (fun n => (.integer n, rest)) := by
  rw [decode_inner_line fuel 58 payload rest hLF (by decide)]

theorem sizeD_pos (v : Data) : 1 ≤ sizeD v := by
  cases v <;> simp [sizeD]


theorem decode_inner_bulk_ok (fuel : Nat) (payload rest : List Nat) (n : Int)
    (hLF : LF_BYTE ∉ payload) (hp : parse_integer payload = .ok n) :
    decode_inner (fuel + 1) (36 :: (payload ++ CR_BYTE :: LF_BYTE :: rest)) =
      (if n = -1 then .ok (.null, rest)
       else if n < -1 ∨ RESPONSE_MAX_SIZE < n then .error (.dataTooLarge n)
       else
         match read_exact (n.toNat + 2) rest with
         | none => .error .unexpectedEof
         | some (sb, rest2) =>
           if ¬ is_crlf (sb.getD (sb.length - 2) 0) (sb.getD (sb.length - 1) 0) then
             .error (.invalidCrlf CR_BYTE LF_BYTE)
           else
             (parse_string (sb.take (sb.length - 2))).map
               (fun s => (.bulkString s, rest2))) := by
  rw [decode_inner_line_36 fuel payload rest hLF, hp]

theorem decode_inner_array_ok (fuel : Nat) (payload rest : List Nat) (n : Int)
    (hLF : LF_BYTE ∉ payload) (hp : parse_integer payload = .ok n) :
    decode_inner (fuel + 1) (42 :: (payload ++ CR_BYTE :: LF_BYTE :: rest)) =
      (if n = -1 then .ok (.nullArray, rest)
       else if n < -1 ∨ RESPONSE_MAX_SIZE < n then .error (.dataTooLarge n)
       else
         match decodeItems (decode_inner fuel) n.toNat rest with
         | .error e => .error e
         | .ok (ds, rest2) => .ok (.array ds, rest2)) := by
  rw [decode_inner_line_42 fuel payload rest hLF, hp]

/-! ## The round-trip -/

theorem roundtrip_bound :
    ∀ N : Nat,
      (∀ v : Data, sizeD v ≤ N → wfData v = true → ∀ fuel rest, sizeD v ≤ fuel →
        decode_inner fuel (encode v ++ rest) = .ok (v, rest)) ∧
      (∀ items : List Data, sizeL items ≤ N → wfList items = true →
        ∀ fuel rest, sizeL items ≤ fuel →
        decodeItems (decode_inner fuel) items.length (encodeList items ++ rest)
          = .ok (items, rest)) := by
  intro N
  induction N using Nat.strong_induction_on with
  | _ N IH =>
  have hmain : ∀ v : Data, sizeD v ≤ N → wfData v = true → ∀ fuel rest, sizeD v ≤ fuel →
      decode_inner fuel (encode v ++ rest) = .ok (v, rest) := by
    intro v hN hwf fuel rest hfuel
    obtain ⟨f, rfl⟩ : ∃ f, fuel = f + 1 := ⟨fuel - 1, by have := sizeD_pos v; omega⟩
    cases v with
    | simpleString s =>
      simp only [wfData, Bool.and_eq_true, decide_eq_true_eq] at hwf
      have heq : encode (.simpleString s) ++ rest
          = 43 :: (s ++ CR_BYTE :: LF_BYTE :: rest) := by simp [encode]
      rw [heq, decode_inner_line_43 f s rest hwf.2]
      simp [parse_string, hwf.1, Except.map]
    | error s =>
      simp only [wfData, Bool.and_eq_true, decide_eq_true_eq] at hwf
      have heq : encode (.error s) ++ rest
          = 45 :: (s ++ CR_BYTE :: LF_BYTE :: rest) := by simp [encode]
      rw [heq, decode_inner_line_45 f s rest hwf.2]
      simp [parse_string, hwf.1, Except.map]
    | integer n =>
      simp only [wfData, Bool.and_eq_true, decide_eq_true_eq] at hwf
      have heq : encode (.integer n) ++ rest
          = 58 :: (intDecimal n ++ CR_BYTE :: LF_BYTE :: rest) := by simp [encode]
      rw [heq, decode_inner_line_58 f (intDecimal n) rest (intDecimal_no_lf n),
        parse_integer_intDecimal n hwf.1 hwf.2]
      rfl
    | null =>
      have heq : encode Data.null ++ rest
          = 36 :: ([45, 49] ++ CR_BYTE :: LF_BYTE :: rest) := by simp [encode]
      rw [heq, decode_inner_line_36 f [45, 49] rest (by decide)]
      rfl
    | nullArray =>
      have heq : encode Data.nullArray ++ rest
          = 42 :: ([45, 49] ++ CR_BYTE :: LF_BYTE :: rest) := by simp [encode]
      rw [heq, decode_inner_line_42 f [45, 49] rest (by decide)]
      rfl
    | bulkString s =>
      simp only [wfData, Bool.and_eq_true, decide_eq_true_eq] at hwf
      obtain ⟨hlen, hutf⟩ := hwf
      have hsl : (s.length : Int) ≤ 536870912 := by exact_mod_cast hlen
      have hM : RESPONSE_MAX_SIZE = (536870912 : Int) := by decide
      have hX : (536870912 : Int) ≤ I64_MAX := by decide
      have heq : encode (.bulkString s) ++ rest
          = 36 :: (natDecimal s.length ++
              CR_BYTE :: LF_BYTE :: (s ++ CR_BYTE :: LF_BYTE :: rest)) := by simp [encode]
      rw [heq, decode_inner_bulk_ok f _ _ ((s.length : Nat) : Int) (natDecimal_no_lf _)
        (parse_integer_natDecimal s.length (by omega))]
      rw [if_neg (by omega), if_neg (by rw [hM]; push_neg; omega)]
      rw [Int.toNat_natCast]
      have hre : read_exact (s.length + 2) (s ++ CR_BYTE :: LF_BYTE :: rest)
          = some (s ++ [CR_BYTE, LF_BYTE], rest) := by
        unfold read_exact
        rw [if_pos (by simp)]
        rw [show s ++ CR_BYTE :: LF_BYTE :: rest = (s ++ [CR_BYTE, LF_BYTE]) ++ rest from
          by simp]
        rw [List.take_left' (by simp), List.drop_left' (by simp)]
      rw [hre]
      have hg1 : (s ++ [CR_BYTE, LF_BYTE]).length - 2 = s.length := by simp
      have hg2 : (s ++ [CR_BYTE, LF_BYTE]).length - 1 = s.length + 1 := by simp
      show (if ¬ is_crlf
            ((s ++ [CR_BYTE, LF_BYTE]).getD ((s ++ [CR_BYTE, LF_BYTE]).length - 2) 0)
            ((s ++ [CR_BYTE, LF_BYTE]).getD ((s ++ [CR_BYTE, LF_BYTE]).length - 1) 0) = true
          then Except.error (DecodeErr.invalidCrlf CR_BYTE LF_BYTE)
          else Except.map (fun s2 => (Data.bulkString s2, rest))
            (parse_string (List.take ((s ++ [CR_BYTE, LF_BYTE]).length - 2)
              (s ++ [CR_BYTE, LF_BYTE]))))
        = Except.ok (Data.bulkString s, rest)
      rw [hg1, hg2, getD_append_two_fst, getD_append_two_snd]
      rw [if_neg (by decide)]
      rw [List.take_left' rfl]
      simp [parse_string, hutf, Except.map]
    | array items =>
      simp only [wfData, Bool.and_eq_true, decide_eq_true_eq] at hwf
      obtain ⟨hlen, hwfl⟩ := hwf
      have hil : (items.length : Int) ≤ 536870912 := by exact_mod_cast hlen
      have hM : RESPONSE_MAX_SIZE = (536870912 : Int) := by decide
      have hX : (536870912 : Int) ≤ I64_MAX := by decide
      have hN1 : sizeL items < N := by
        have h := hN
        simp only [sizeD] at h
        omega
      have hf : sizeL items ≤ f := by
        have h := hfuel
        simp only [sizeD] at h
        omega
      have heq : encode (.array items) ++ rest
          = 42 :: (natDecimal items.length ++
              CR_BYTE :: LF_BYTE :: (encodeList items ++ rest)) := by simp [encode]
      rw [heq, decode_inner_array_ok f _ _ ((items.length : Nat) : Int) (natDecimal_no_lf _)
        (parse_integer_natDecimal items.length (by omega))]
      rw [if_neg (by omega), if_neg (by rw [hM]; push_neg; omega)]
      rw [Int.toNat_natCast]
      rw [(IH (sizeL items) hN1).2 items le_rfl hwfl f rest hf]
  have hlist : ∀ items : List Data, sizeL items ≤ N → wfList items = true →
      ∀ fuel rest, sizeL items ≤ fuel →
      decodeItems (decode_inner fuel) items.length (encodeList items ++ rest)
        = .ok (items, rest) := by
    intro items
    induction items with
    | nil =>
      intro _ _ fuel rest _
      simp [encodeList, decodeItems]
    | cons d ds ih =>
      intro hNc hwf fuel rest hfuel
      simp only [wfList, Bool.and_eq_true] at hwf
      have hNd : sizeD d ≤ N := by
        simp only [sizeL] at hNc
        omega
      have hNds : sizeL ds ≤ N := by
        simp only [sizeL] at hNc
        omega
      have hfd : sizeD d ≤ fuel := by
        simp only [sizeL] at hfuel
        omega
      have hfds : sizeL ds ≤ fuel := by
        simp only [sizeL] at hfuel
        omega
      show decodeItems (decode_inner fuel) (ds.length + 1)
          ((encode d ++ encodeList ds) ++ rest) = .ok (d :: ds, rest)
      rw [List.append_assoc, decodeItems,
        hmain d hNd hwf.1 fuel (encodeList ds ++ rest) hfd]
      show (match decodeItems (decode_inner fuel) ds.length (encodeList ds ++ rest) with
        | Except.error e => Except.error e
        | Except.ok (ds2, rest2) => Except.ok (d :: ds2, rest2))
        = Except.ok (d :: ds, rest)
      rw [ih hNds hwf.2 fuel rest hfds]
  exact ⟨hmain, hlist⟩

theorem encode_length_ge :
    ∀ N : Nat,
      (∀ v : Data, sizeD v ≤ N → sizeD v ≤ (encode v).length) ∧
      (∀ items : List Data, sizeL items ≤ N → sizeL items ≤ (encodeList items).length) := by
  intro N
  induction N using Nat.strong_induction_on with
  | _ N IH =>
  have hmain : ∀ v : Data, sizeD v ≤ N → sizeD v ≤ (encode v).length := by
    intro v hN
    cases v with
    | array items =>
      have h1 : sizeL items < N := by
        have h := hN
        simp only [sizeD] at h
        have := sizeD_pos (.array items)
        omega
      have h2 := (IH (sizeL items) h1).2 items le_rfl
      simp only [sizeD, encode, List.length_cons, List.length_append]
      omega
    | bulkString s => simp [sizeD, encode]
    | error s => simp [sizeD, encode]
    | integer n => simp [sizeD, encode]
    | null => simp [sizeD, encode]
    | nullArray => simp [sizeD, encode]
    | simpleString s => simp [sizeD, encode]
  have hlist : ∀ items : List Data, sizeL items ≤ N →
      sizeL items ≤ (encodeList items).length := by
    intro items
    induction items with
    | nil => intro _; simp [sizeL, encodeList]
    | cons d ds ih =>
      intro hNc
      have h1 : sizeD d ≤ N := by
        simp only [sizeL] at hNc
        omega
      have h2 : sizeL ds ≤ N := by
        simp only [sizeL] at hNc
        omega
      have h3 := hmain d h1
      have h4 := ih h2
      simp only [sizeL, encodeList, List.length_append]
      omega
  exact ⟨hmain, hlist⟩


/-- C1 counterexample: a constructible Value that does not round-trip.  The
SimpleString "a\\r\\nb" (bytes 97 13 10 98, valid UTF-8, so a legal Rust
String) encodes to `+a\\r\\nb\\r\\n`; decode reads only up to the first LF and
returns SimpleString "a" with the bytes `b\\r\\n` left in the stream. -/
theorem decode_encode_not_identity :
    validUtf8 [97, 13, 10, 98] = true ∧
    decode (encode (Data.simpleString [97, 13, 10, 98])) =
      .ok (Data.simpleString [97], [98, 13, 10]) ∧
    Data.simpleString [97] ≠ Data.simpleString [97, 13, 10, 98] := by
  refine ⟨rfl, rfl, ?_⟩
  intro h
  injection h with h2
  simp at h2

/-- C1 (amended): `decode (encode v) = v` (with the whole encoding consumed)
for every constructible Value `v` that is well-formed for the wire: integer
fields in i64 range and payload strings valid UTF-8 (automatic for Rust
values), BulkString byte length and Array length at most 536870912, and no
LF byte inside a SimpleString or Error payload.  A SimpleString or Error
payload containing LF breaks the round trip (see the counterexample), as
does an oversized BulkString or Array. -/
theorem decode_encode_roundtrip (v : Data) (h : wfData v = true) :
    decode (encode v) = .ok (v, []) := by
  unfold decode
  have hb := (roundtrip_bound (sizeD v)).1 v le_rfl h ((encode v).length + 1) []
    (by have := (encode_length_ge (sizeD v)).1 v le_rfl; omega)
  rw [List.append_nil] at hb
  exact hb

theorem decode_encode_roundtrip_witness :
    wfData (Data.array [Data.bulkString [72, 105], Data.null, Data.integer (-7),
      Data.simpleString [79, 75]]) = true ∧
    decode (encode (Data.array [Data.bulkString [72, 105], Data.null, Data.integer (-7),
      Data.simpleString [79, 75]])) =
      .ok (Data.array [Data.bulkString [72, 105], Data.null, Data.integer (-7),
        Data.simpleString [79, 75]], []) :=
  ⟨rfl, decode_encode_roundtrip _ rfl⟩

end Sparrow
